import Mathlib

set_option linter.unusedVariables false
set_option linter.unnecessarySimpa false

/- Shallow embedding of RestfulGit's resolution / conversion / traversal
layer (restfulgit/__init__.py, restfulgit/plumbing/*, restfulgit/porcelain/*).
Object ids are modelled as strings, repositories as finite association lists
from id to object and from reference name to reference value. -/

/-- User-visible error kinds of the service (JSON error pages), plus
`uncaught` for Python exceptions that no handler converts to an HTTP error
(they would surface as a 500). -/
inductive RGError where
  | notFound (msg : String)
  | badRequest (msg : String)
  | uncaught
deriving DecidableEq, Repr

instance {ε α : Type} [DecidableEq ε] [DecidableEq α] : DecidableEq (Except ε α) := fun a b =>
  match a, b with
  | .ok x, .ok y =>
    if h : x = y then isTrue (by rw [h]) else isFalse (by intro hc; cases hc; exact h rfl)
  | .ok _, .error _ => isFalse (by intro hc; cases hc)
  | .error _, .ok _ => isFalse (by intro hc; cases hc)
  | .error e, .error f =>
    if h : e = f then isTrue (by rw [h]) else isFalse (by intro hc; cases hc; exact h rfl)

/-- A git object, as far as the modelled logic inspects it: commits carry
their ordered parent ids and commit time, annotated tags carry their target
object id. -/
inductive GObj where
  | commit (parent_ids : List String) (time : Int)
  | tree
  | blob
  | tag (target : String)
deriving DecidableEq, Repr

/-- A reference either stores an object id directly or points at another
reference by name (symbolic, e.g. HEAD). -/
inductive RefVal where
  | direct (target : String)
  | symbolic (target : String)
deriving DecidableEq, Repr

/-- A repository: its object store and its reference store. -/
structure Repo where
  objects : List (String × GObj)
  refs : List (String × RefVal)
deriving DecidableEq, Repr

/-- `repo[sha]` lookup in the object store. -/
def lookupObj (repo : Repo) (sha : String) : Option GObj :=
  (repo.objects.find? (fun p => p.1 == sha)).map (fun p => p.2)

/-- `repo.lookup_reference(name)`: exact lookup in the reference store. -/
def findRef (repo : Repo) (name : String) : Option (String × RefVal) :=
  repo.refs.find? (fun p => p.1 == name)

/-- Python `"/" in s`. -/
def hasSlash (s : String) : Bool :=
  s.data.any (fun c => c == '/')

/-- Python `s.startswith(p)`. -/
def pyStartsWith (p s : String) : Bool :=
  p.data.isPrefixOf s.data

/-- `lookup_ref` / `_lookup_ref`: exact reference lookup; on failure, retry
as `refs/<name>` when the name contains a slash and does not already start
with `refs/`, otherwise as `refs/heads/<name>`; `None` if still unresolved. -/
def lookup_ref (repo : Repo) (ref_name : String) : Option (String × RefVal) :=
  match findRef repo ref_name with
  | some r => some r
  | none =>
    let ref_name' :=
      if hasSlash ref_name && !pyStartsWith "refs/" ref_name then "refs/" ++ ref_name
      else "refs/heads/" ++ ref_name
    findRef repo ref_name'

/-- `ref.resolve()`: follow symbolic references until a direct reference is
reached; `none` models the KeyError raised on an unresolvable (e.g. unborn)
reference. Fuel bounds symbolic chains by the size of the reference store. -/
def resolveRefVal (repo : Repo) : Nat → RefVal → Option String
  | _, .direct t => some t
  | 0, .symbolic _ => none
  | fuel+1, .symbolic n =>
    match findRef repo n with
    | some r => resolveRefVal repo fuel r.2
    | none => none

/-- `ref.resolve().target`: the object id a reference ultimately stores. -/
def refResolveTarget (repo : Repo) (r : String × RefVal) : Option String :=
  resolveRefVal repo (repo.refs.length + 1) r.2

/-- Transitively peel annotated tags: follow `tag.target` until a non-tag
object is reached. `none` models a dangling id (KeyError). -/
def peelTags (repo : Repo) : Nat → String → Option String
  | 0, _ => none
  | fuel+1, sha =>
    match lookupObj repo sha with
    | some (.tag t) => peelTags repo fuel t
    | some _ => some sha
    | none => none

/-- `ref.get_object()`: resolve the reference, then peel tags transitively;
returns the id of the peeled object. -/
def refGetObject (repo : Repo) (r : String × RefVal) : Option String :=
  (refResolveTarget repo r).bind (peelTags repo (repo.objects.length + 1))

/-- `_get_commit(repo, sha)`: object lookup plus commit type check. -/
def _get_commit (repo : Repo) (sha : String) : Except RGError String :=
  match lookupObj repo sha with
  | none => .error (.notFound "commit not found")
  | some (.commit _ _) => .ok sha
  | some _ => .error (.notFound "object not a commit")

/-- `_get_commit_for_refspec(repo, branch_or_tag_or_sha)` from
restfulgit/__init__.py: try the name as a reference via `_lookup_ref`
("branch?"), then as `tags/<name>` ("tag?", peeling via `get_object`), then
treat it literally as a commit id; the final `_get_commit` failure is
converted into NotFound("no such branch, tag, or commit SHA"). A KeyError
raised while resolving or peeling escapes uncaught. -/
def _get_commit_for_refspec (repo : Repo) (branch_or_tag_or_sha : String) :
    Except RGError String :=
  let step1 : Except RGError (Option String) :=
    match lookup_ref repo branch_or_tag_or_sha with
    | some r =>
      match refResolveTarget repo r with
      | some t => .ok (some t)
      | none => .error .uncaught
    | none => .ok none
  match step1 with
  | .error e => .error e
  | .ok commitSha?1 =>
    let step2 : Except RGError (Option String) :=
      match commitSha?1 with
      | some s => .ok (some s)
      | none =>
        match lookup_ref repo ("tags/" ++ branch_or_tag_or_sha) with
        | some r =>
          match refGetObject repo r with
          | some s => .ok (some s)
          | none => .error .uncaught
        | none => .ok none
    match step2 with
    | .error e => .error e
    | .ok commitSha?2 =>
      match _get_commit repo (commitSha?2.getD branch_or_tag_or_sha) with
      | .ok s => .ok s
      | .error _ => .error (.notFound "no such branch, tag, or commit SHA")

/-- Modelled from the spec (section 4.2 `resolveRefspec`), for comparison
with `_get_commit_for_refspec`: precedence is branch (`refs/heads/<name>`),
then tag (`refs/tags/<name>`, peeled transitively), then raw commit SHA;
NotFound("no such branch, tag, or commit SHA") when none match. -/
def resolve_refspec_spec (repo : Repo) (name : String) : Except RGError String :=
  let step1 : Except RGError (Option String) :=
    match findRef repo ("refs/heads/" ++ name) with
    | some r =>
      match refResolveTarget repo r with
      | some t => .ok (some t)
      | none => .error .uncaught
    | none => .ok none
  match step1 with
  | .error e => .error e
  | .ok commitSha?1 =>
    let step2 : Except RGError (Option String) :=
      match commitSha?1 with
      | some s => .ok (some s)
      | none =>
        match findRef repo ("refs/tags/" ++ name) with
        | some r =>
          match refGetObject repo r with
          | some s => .ok (some s)
          | none => .error .uncaught
        | none => .ok none
    match step2 with
    | .error e => .error e
    | .ok commitSha?2 =>
      match _get_commit repo (commitSha?2.getD name) with
      | .ok s => .ok s
      | .error _ => .error (.notFound "no such branch, tag, or commit SHA")

/-- A slash-free name cannot start with "refs/". -/
theorem not_startsWith_refs_of_no_slash {name : String} (h : hasSlash name = false) :
    pyStartsWith "refs/" name = false := by
  by_contra hne
  have hpre : pyStartsWith "refs/" name = true := by
    cases hp : pyStartsWith "refs/" name with
    | false => exact absurd hp hne
    | true => rfl
  have hpre' : "refs/".data <+: name.data := by
    simpa [pyStartsWith, List.isPrefixOf_iff_prefix] using hpre
  obtain ⟨t, ht⟩ := hpre'
  have hmem : '/' ∈ name.data := by
    rw [← ht]
    simp
  have : hasSlash name = true := by
    simp only [hasSlash, List.any_eq_true]
    exact ⟨'/', hmem, by decide⟩
  rw [this] at h
  cases h

/-- Under the standard layout (all reference names live under "refs/" or are
"HEAD"), a slash-free name other than "HEAD" has no exact reference. -/
theorem findRef_plain_name_none (repo : Repo) (name : String)
    (hkeys : ∀ p ∈ repo.refs, pyStartsWith "refs/" p.1 = true ∨ p.1 = "HEAD")
    (hname : hasSlash name = false) (hhead : name ≠ "HEAD") :
    findRef repo name = none := by
  unfold findRef
  rw [List.find?_eq_none]
  intro p hp hbeq
  have hpe : p.1 = name := by simpa using hbeq
  rcases hkeys p hp with hpre | hH
  · rw [hpe] at hpre
    rw [not_startsWith_refs_of_no_slash hname] at hpre
    cases hpre
  · exact hhead (hpe ▸ hH)

/-- "tags/<name>" never matches an exact reference under the standard
layout. -/
theorem findRef_tags_name_none (repo : Repo) (name : String)
    (hkeys : ∀ p ∈ repo.refs, pyStartsWith "refs/" p.1 = true ∨ p.1 = "HEAD") :
    findRef repo ("tags/" ++ name) = none := by
  unfold findRef
  rw [List.find?_eq_none]
  intro p hp hbeq
  have hpe : p.1 = "tags/" ++ name := by simpa using hbeq
  rcases hkeys p hp with hpre | hH
  · rw [hpe] at hpre
    have hpre' : "refs/".data <+: ("tags/" ++ name).data := by
      simpa [pyStartsWith, List.isPrefixOf_iff_prefix] using hpre
    obtain ⟨t, ht⟩ := hpre'
    have : ("tags/" ++ name).data = 't' :: "ags/".data ++ name.data := by
      simp [String.data_append]
    rw [this] at ht
    simp at ht
  · rw [hpe] at hH
    have : ("tags/" ++ name).data = "HEAD".data := by rw [hH]
    simp [String.data_append] at this

/-- "tags/<name>" contains a slash. -/
theorem hasSlash_tags (name : String) : hasSlash ("tags/" ++ name) = true := by
  simp [hasSlash, List.any_eq_true, String.data_append]

/-- "tags/<name>" does not start with "refs/". -/
theorem not_startsWith_refs_tags (name : String) :
    pyStartsWith "refs/" ("tags/" ++ name) = false := by
  rw [pyStartsWith]
  rw [Bool.eq_false_iff]
  intro hpre
  have hpre' : "refs/".data <+: ("tags/" ++ name).data := by
    simpa [List.isPrefixOf_iff_prefix] using hpre
  obtain ⟨t, ht⟩ := hpre'
  have : ("tags/" ++ name).data = 't' :: "ags/".data ++ name.data := by
    simp [String.data_append]
  rw [this] at ht
  simp at ht

/-- C1 (amended): for plain refspecs — names containing no '/' and distinct
from any exact reference name such as "HEAD" — `_get_commit_for_refspec`
implements exactly the spec's precedence order branch (`refs/heads/<name>`)
→ tag (`refs/tags/<name>`, peeled transitively) → raw commit SHA, failing
NotFound("no such branch, tag, or commit SHA") when none match; in
particular a name that is both a branch and a tag resolves as the branch. -/
theorem C1_refspec_precedence (repo : Repo) (name : String)
    (hkeys : ∀ p ∈ repo.refs, pyStartsWith "refs/" p.1 = true ∨ p.1 = "HEAD")
    (hname : hasSlash name = false) (hhead : name ≠ "HEAD") :
    _get_commit_for_refspec repo name = resolve_refspec_spec repo name := by
  have h1 : lookup_ref repo name = findRef repo ("refs/heads/" ++ name) := by
    unfold lookup_ref
    rw [findRef_plain_name_none repo name hkeys hname hhead]
    rw [hname]
    simp
  have h2 : lookup_ref repo ("tags/" ++ name) = findRef repo ("refs/tags/" ++ name) := by
    unfold lookup_ref
    rw [findRef_tags_name_none repo name hkeys]
    rw [hasSlash_tags, not_startsWith_refs_tags]
    simp
    rw [← String.append_assoc]
    rfl
  unfold _get_commit_for_refspec resolve_refspec_spec
  rw [h1, h2]

/-- Repository used for the C1 counterexample: HEAD points (symbolically)
at refs/heads/master, which stores commit c1. -/
def repoC1 : Repo :=
  { objects := [("c1", .commit [] 0)]
  , refs := [("HEAD", .symbolic "refs/heads/master"), ("refs/heads/master", .direct "c1")] }

/-- C1 counterexample: for the name "HEAD" the code resolves the exact
reference HEAD and returns its commit, whereas the claimed precedence
(branch `refs/heads/HEAD` → tag `refs/tags/HEAD` → raw SHA) matches nothing
and would fail NotFound; so the claimed resolution procedure does not hold
for every name string. -/
theorem C1_counterexample :
    _get_commit_for_refspec repoC1 "HEAD" = .ok "c1" ∧
    resolve_refspec_spec repoC1 "HEAD" =
      .error (.notFound "no such branch, tag, or commit SHA") := by
  constructor <;> rfl

/-- Witness for C1: in a repository where "dev" names both a branch (at
commit c1) and an annotated tag (at commit c2), resolution agrees with the
spec's precedence and returns the branch's commit c1. -/
def repoC1w : Repo :=
  { objects :=
      [ ("c1", .commit [] 0)
      , ("c2", .commit [] 0)
      , ("t1", .tag "c2") ]
  , refs :=
      [ ("HEAD", .symbolic "refs/heads/dev")
      , ("refs/heads/dev", .direct "c1")
      , ("refs/tags/dev", .direct "t1") ] }

theorem C1_refspec_precedence_witness :
    _get_commit_for_refspec repoC1w "dev" = resolve_refspec_spec repoC1w "dev" ∧
    _get_commit_for_refspec repoC1w "dev" = .ok "c1" := by
  refine ⟨C1_refspec_precedence repoC1w "dev" ?_ (by decide) (by decide), by rfl⟩
  decide

/- Tree flattening (restfulgit/plumbing/converters.py).
A tree entry is modelled as (name, filemode, sha, target object); the
`repo[entry.id]` dereference is inlined as the `target` component, which for
the non-submodule entries the code inspects is always a blob or a tree. -/

/-- A tree-reachable object: a blob with its size, or a tree with its
ordered entries (name, filemode, sha, target). -/
inductive TreeObj where
  | blob (size : Nat)
  | tree (entries : List (String × Nat × String × TreeObj))

/-- GIT_MODE_SUBMODULE = 0o160000. -/
def GIT_MODE_SUBMODULE : Nat := 0o160000

/-- One emitted tree-resource entry; `size`/`url` are optional fields. -/
structure EntryData where
  path : String
  sha : String
  type : String
  size : Option Nat
  url : Option String
  mode : String
deriving DecidableEq, Repr

/-- Python-2 `oct(m)[1:].zfill(6)`. -/
def octal6 (m : Nat) : String :=
  let digits := if m = 0 then "" else String.mk (Nat.toDigits 8 m)
  String.mk (List.replicate (6 - digits.length) '0') ++ digits

def blob_url (repo_key sha : String) : String :=
  "/repos/" ++ repo_key ++ "/git/blobs/" ++ sha ++ "/"

def tree_url (repo_key sha : String) : String :=
  "/repos/" ++ repo_key ++ "/git/trees/" ++ sha ++ "/"

/-- `_tree_entries(repo_key, repo, tree, recursive, path)`: per entry, a
submodule-mode entry is emitted with its bare name and no size/url; a blob
is emitted with accumulated path, size and url; a tree is (when recursive)
first expanded into its descendants, then emitted itself. -/
def _tree_entries (repo_key : String)
    (entries : List (String × Nat × String × TreeObj))
    (recursive : Bool) (path : String) : List EntryData :=
  match entries with
  | [] => []
  | (entry_name, filemode, sha, target) :: rest =>
    let entry_data : List EntryData :=
      if filemode = GIT_MODE_SUBMODULE then
        [{ path := entry_name, sha := sha, type := "submodule",
           size := none, url := none, mode := octal6 filemode }]
      else
        match target with
        | .blob size =>
          [{ path := path ++ entry_name, sha := sha, type := "blob",
             size := some size, url := some (blob_url repo_key sha),
             mode := octal6 filemode }]
        | .tree es =>
          (if recursive then _tree_entries repo_key es true (path ++ entry_name ++ "/")
           else [])
          ++ [{ path := path ++ entry_name, sha := sha, type := "tree",
                size := none, url := some (tree_url repo_key sha),
                mode := octal6 filemode }]
    entry_data ++ _tree_entries repo_key rest recursive path

/-- Code-point lexicographic less-or-equal on character lists: Python's
comparison of unicode strings. -/
def lexLeb : List Char → List Char → Bool
  | [], _ => true
  | _ :: _, [] => false
  | a :: as, b :: bs =>
    if a.toNat < b.toNat then true
    else if b.toNat < a.toNat then false
    else lexLeb as bs

/-- Python `a <= b` on strings. -/
def strLeb (a b : String) : Bool := lexLeb a.data b.data

theorem lexLeb_total : ∀ as bs : List Char, lexLeb as bs = true ∨ lexLeb bs as = true := by
  intro as
  induction as with
  | nil => intro bs; left; rfl
  | cons a as ih =>
    intro bs
    cases bs with
    | nil => right; rfl
    | cons b bs' =>
      simp only [lexLeb]
      rcases Nat.lt_trichotomy a.toNat b.toNat with h | h | h
      · left; simp [h]
      · have h1 : ¬ a.toNat < b.toNat := by omega
        have h2 : ¬ b.toNat < a.toNat := by omega
        rcases ih bs' with hl | hr
        · left; simp [h1, h2, hl]
        · right; simp [h1, h2, hr]
      · right; simp [h]

theorem lexLeb_trans : ∀ as bs cs : List Char,
    lexLeb as bs = true → lexLeb bs cs = true → lexLeb as cs = true := by
  intro as
  induction as with
  | nil => intro bs cs h1 h2; rfl
  | cons a as ih =>
    intro bs cs h1 h2
    cases bs with
    | nil => simp [lexLeb] at h1
    | cons b bs' =>
      cases cs with
      | nil => simp [lexLeb] at h2
      | cons c cs' =>
        simp only [lexLeb] at h1 h2 ⊢
        rcases Nat.lt_trichotomy b.toNat a.toNat with hba | hba | hba
        · rw [if_neg (by omega), if_pos hba] at h1
          simp at h1
        · rw [if_neg (by omega), if_neg (by omega)] at h1
          rcases Nat.lt_trichotomy c.toNat b.toNat with hcb | hcb | hcb
          · rw [if_neg (by omega), if_pos hcb] at h2
            simp at h2
          · rw [if_neg (by omega), if_neg (by omega)] at h2
            rw [if_neg (by omega), if_neg (by omega)]
            exact ih bs' cs' h1 h2
          · rw [if_pos (by omega)]
        · rcases Nat.lt_trichotomy c.toNat b.toNat with hcb | hcb | hcb
          · rw [if_neg (by omega), if_pos hcb] at h2
            simp at h2
          · rw [if_pos (by omega)]
          · rw [if_pos (by omega)]

/-- Ordering used by `entry_list.sort(key=lambda entry: entry['path'])`. -/
def pathLE : EntryData → EntryData → Prop := fun a b => strLeb a.path b.path = true

instance : DecidableRel pathLE :=
  fun a b => inferInstanceAs (Decidable (strLeb a.path b.path = true))

instance : IsTotal EntryData pathLE :=
  ⟨fun a b => lexLeb_total a.path.data b.path.data⟩

instance : IsTrans EntryData pathLE :=
  ⟨fun _ _ _ hab hbc => lexLeb_trans _ _ _ hab hbc⟩

/-- The converted tree resource. -/
structure ConvertedTree where
  url : String
  sha : String
  tree : List EntryData
deriving DecidableEq, Repr

/-- `convert_tree`: flatten, then stable-sort all emitted entries once by
path ascending. -/
def convert_tree (repo_key sha : String)
    (entries : List (String × Nat × String × TreeObj)) (recursive : Bool) :
    ConvertedTree :=
  { url := tree_url repo_key sha, sha := sha,
    tree := List.insertionSort pathLE (_tree_entries repo_key entries recursive "") }

theorem str_empty_append (s : String) : "" ++ s = s := by simp

theorem pyStartsWith_self_append (p s : String) : pyStartsWith p (p ++ s) = true := by
  simp only [pyStartsWith, List.isPrefixOf_iff_prefix, String.data_append]
  exact List.prefix_append _ _

theorem pyStartsWith_trans {p q r : String} (h1 : pyStartsWith p q = true)
    (h2 : pyStartsWith q r = true) : pyStartsWith p r = true := by
  simp only [pyStartsWith, List.isPrefixOf_iff_prefix] at h1 h2 ⊢
  exact h1.trans h2

theorem hasSlash_append_left {p : String} (s : String) (h : hasSlash p = true) :
    hasSlash (p ++ s) = true := by
  simp only [hasSlash, List.any_eq_true] at h ⊢
  obtain ⟨c, hc, he⟩ := h
  exact ⟨c, by rw [String.data_append]; exact List.mem_append_left _ hc, he⟩

theorem hasSlash_append_slash (p : String) : hasSlash (p ++ "/") = true := by
  simp only [hasSlash, List.any_eq_true]
  refine ⟨'/', ?_, by decide⟩
  rw [String.data_append]
  exact List.mem_append_right _ (by decide)

/-- Every record emitted by a recursive flatten is either a submodule record
or carries the accumulated path prefix. -/
theorem tree_entries_prefix (repo_key : String)
    (entries : List (String × Nat × String × TreeObj)) (recursive : Bool) (path : String) :
    ∀ e ∈ _tree_entries repo_key entries recursive path,
      e.type = "submodule" ∨ pyStartsWith path e.path = true := by
  induction entries, recursive, path using _tree_entries.induct repo_key with
  | case1 recursive path =>
    intro e he
    simp [_tree_entries] at he
  | case2 recursive path entry_name filemode sha target rest iht ihrest =>
    intro e he
    cases target with
    | blob size =>
      simp only [_tree_entries] at he
      rcases List.mem_append.mp he with he | he
      · by_cases hfm : filemode = GIT_MODE_SUBMODULE
        · rw [if_pos hfm] at he
          simp only [List.mem_singleton] at he
          subst he
          left
          rfl
        · rw [if_neg hfm] at he
          simp only [List.mem_singleton] at he
          subst he
          right
          exact pyStartsWith_self_append path entry_name
      · exact ihrest e he
    | tree es =>
      simp only [_tree_entries] at he
      rcases List.mem_append.mp he with he | he
      · by_cases hfm : filemode = GIT_MODE_SUBMODULE
        · rw [if_pos hfm] at he
          simp only [List.mem_singleton] at he
          subst he
          left
          rfl
        · rw [if_neg hfm] at he
          rcases List.mem_append.mp he with he | he
          · cases recursive with
            | false => simp at he
            | true =>
              rw [if_pos rfl] at he
              rcases iht e he with h | h
              · left; exact h
              · right
                refine pyStartsWith_trans ?_ h
                rw [String.append_assoc]
                exact pyStartsWith_self_append _ _
          · simp only [List.mem_singleton] at he
            subst he
            right
            exact pyStartsWith_self_append path entry_name
      · exact ihrest e he

/-- No entry at any depth has the submodule file mode. -/
def noSubmodulesDeep : List (String × Nat × String × TreeObj) → Bool
  | [] => true
  | (_, filemode, _, target) :: rest =>
    (filemode != GIT_MODE_SUBMODULE) &&
    (match target with
      | .blob _ => true
      | .tree es => noSubmodulesDeep es) &&
    noSubmodulesDeep rest

/-- Every entry name at any depth is slash-free (a git tree invariant). -/
def namesSlashFree : List (String × Nat × String × TreeObj) → Bool
  | [] => true
  | (entry_name, _, _, target) :: rest =>
    !hasSlash entry_name &&
    (match target with
      | .blob _ => true
      | .tree es => namesSlashFree es) &&
    namesSlashFree rest

/-- Submodule-mode entries appear at most at the top level. -/
def noNestedSubmodules : List (String × Nat × String × TreeObj) → Bool
  | [] => true
  | (_, filemode, _, target) :: rest =>
    ((filemode == GIT_MODE_SUBMODULE) ||
      (match target with
        | .blob _ => true
        | .tree es => noSubmodulesDeep es)) &&
    noNestedSubmodules rest

/-- Inside a prefix that already contains a slash, every record emitted by a
submodule-free flatten has a slash in its path. -/
theorem tree_entries_deep_slash (repo_key : String)
    (entries : List (String × Nat × String × TreeObj)) (recursive : Bool) (path : String) :
    noSubmodulesDeep entries = true → namesSlashFree entries = true →
    hasSlash path = true →
    ∀ e ∈ _tree_entries repo_key entries recursive path, hasSlash e.path = true := by
  induction entries, recursive, path using _tree_entries.induct repo_key with
  | case1 recursive path =>
    intro _ _ _ e he
    simp [_tree_entries] at he
  | case2 recursive path entry_name filemode sha target rest iht ihrest =>
    intro hno hnames hp e he
    cases target with
    | blob size =>
      simp only [noSubmodulesDeep, Bool.and_true, Bool.and_eq_true, bne_iff_ne] at hno
      obtain ⟨hfm, hrest⟩ := hno
      simp only [namesSlashFree, Bool.and_true, Bool.and_eq_true] at hnames
      obtain ⟨hn, hnrest⟩ := hnames
      simp only [_tree_entries] at he
      rcases List.mem_append.mp he with he | he
      · rw [if_neg hfm] at he
        simp only [List.mem_singleton] at he
        subst he
        exact hasSlash_append_left _ hp
      · exact ihrest hrest hnrest hp e he
    | tree es =>
      simp only [noSubmodulesDeep, Bool.and_eq_true, bne_iff_ne] at hno
      obtain ⟨⟨hfm, hsub⟩, hrest⟩ := hno
      simp only [namesSlashFree, Bool.and_eq_true] at hnames
      obtain ⟨⟨hn, hnsub⟩, hnrest⟩ := hnames
      simp only [_tree_entries] at he
      rcases List.mem_append.mp he with he | he
      · rw [if_neg hfm] at he
        rcases List.mem_append.mp he with he | he
        · cases recursive with
          | false => simp at he
          | true =>
            rw [if_pos rfl] at he
            exact iht hsub hnsub (hasSlash_append_slash _) e he
        · simp only [List.mem_singleton] at he
          subst he
          exact hasSlash_append_left _ hp
      · exact ihrest hrest hnrest hp e he

/-- For slash-free entry names with no nested submodules, filtering the
recursive flatten down to slash-free paths gives exactly the non-recursive
flatten. -/
theorem filter_depth1_flatten (repo_key : String)
    (entries : List (String × Nat × String × TreeObj)) :
    namesSlashFree entries = true → noNestedSubmodules entries = true →
    (_tree_entries repo_key entries true "").filter (fun e => !hasSlash e.path)
      = _tree_entries repo_key entries false "" := by
  induction entries with
  | nil => intro _ _; simp [_tree_entries]
  | cons hd tl ih =>
    obtain ⟨entry_name, filemode, sha, target⟩ := hd
    intro hnames hnest
    cases target with
    | blob size =>
      simp only [namesSlashFree, Bool.and_true, Bool.and_eq_true,
        Bool.not_eq_true'] at hnames
      obtain ⟨hn, hnrest⟩ := hnames
      simp only [noNestedSubmodules, Bool.or_true, Bool.true_and] at hnest
      simp only [_tree_entries]
      rw [List.filter_append, ih hnrest hnest]
      congr 1
      by_cases hfm : filemode = GIT_MODE_SUBMODULE
      · rw [if_pos hfm]
        simp [List.filter, hn]
      · rw [if_neg hfm]
        simp [List.filter, str_empty_append, hn]
    | tree es =>
      simp only [namesSlashFree, Bool.and_eq_true, Bool.not_eq_true'] at hnames
      obtain ⟨⟨hn, hnsub⟩, hnrest⟩ := hnames
      simp only [noNestedSubmodules, Bool.and_eq_true, Bool.or_eq_true,
        beq_iff_eq] at hnest
      obtain ⟨hhd, hrest⟩ := hnest
      simp only [_tree_entries]
      rw [List.filter_append, ih hnrest hrest]
      congr 1
      by_cases hfm : filemode = GIT_MODE_SUBMODULE
      · rw [if_pos hfm, if_pos hfm]
        simp [List.filter, hn]
      · rw [if_neg hfm, if_neg hfm]
        have hdeepsub : noSubmodulesDeep es = true := by
          rcases hhd with h | h
          · exact absurd h hfm
          · exact h
        rw [if_pos trivial, if_neg (by simp)]
        rw [List.filter_append]
        have hdeep : (_tree_entries repo_key es true ("" ++ entry_name ++ "/")).filter
            (fun e => !hasSlash e.path) = [] := by
          rw [List.filter_eq_nil_iff]
          intro a ha
          have := tree_entries_deep_slash repo_key es true ("" ++ entry_name ++ "/")
            hdeepsub hnsub (hasSlash_append_slash _) a ha
          simp [this]
        rw [hdeep]
        simp [List.filter, str_empty_append, hn]

/-- Every submodule-typed record in a flatten result has no size and no url
field. -/
theorem submodule_records_fields (repo_key : String)
    (entries : List (String × Nat × String × TreeObj)) (recursive : Bool) (path : String) :
    ∀ e ∈ _tree_entries repo_key entries recursive path,
      e.type = "submodule" → e.size = none ∧ e.url = none := by
  induction entries, recursive, path using _tree_entries.induct repo_key with
  | case1 recursive path =>
    intro e he
    simp [_tree_entries] at he
  | case2 recursive path entry_name filemode sha target rest iht ihrest =>
    intro e he htype
    cases target with
    | blob size =>
      simp only [_tree_entries] at he
      rcases List.mem_append.mp he with he | he
      · by_cases hfm : filemode = GIT_MODE_SUBMODULE
        · rw [if_pos hfm] at he
          simp only [List.mem_singleton] at he
          subst he
          exact ⟨rfl, rfl⟩
        · rw [if_neg hfm] at he
          simp only [List.mem_singleton] at he
          subst he
          simp at htype
      · exact ihrest e he htype
    | tree es =>
      simp only [_tree_entries] at he
      rcases List.mem_append.mp he with he | he
      · by_cases hfm : filemode = GIT_MODE_SUBMODULE
        · rw [if_pos hfm] at he
          simp only [List.mem_singleton] at he
          subst he
          exact ⟨rfl, rfl⟩
        · rw [if_neg hfm] at he
          rcases List.mem_append.mp he with he | he
          · cases recursive with
            | false => simp at he
            | true =>
              rw [if_pos rfl] at he
              exact iht e he htype
          · simp only [List.mem_singleton] at he
            subst he
            simp at htype
      · exact ihrest e he htype

/-- C9: a tree entry whose file mode equals GIT_MODE_SUBMODULE (0o160000) is
emitted with its path equal to the entry's bare name (without the
accumulated directory prefix), with no size and no url field, and is never
dereferenced or recursed into — flattening continues directly with the
remaining entries; moreover every submodule-typed record in any flatten
result lacks size and url. -/
theorem C9_submodule_entries (repo_key entry_name : String) (filemode : Nat)
    (sha : String) (target : TreeObj)
    (rest : List (String × Nat × String × TreeObj))
    (recursive : Bool) (path : String)
    (h : filemode = GIT_MODE_SUBMODULE) :
    (_tree_entries repo_key ((entry_name, filemode, sha, target) :: rest) recursive path
      = { path := entry_name, sha := sha, type := "submodule",
          size := none, url := none, mode := octal6 filemode } ::
        _tree_entries repo_key rest recursive path) ∧
    (∀ entries' path', ∀ e ∈ _tree_entries repo_key entries' recursive path',
      e.type = "submodule" → e.size = none ∧ e.url = none) := by
  constructor
  · cases target with
    | blob size =>
      simp only [_tree_entries]
      rw [if_pos h]
      rfl
    | tree es =>
      simp only [_tree_entries]
      rw [if_pos h]
      rfl
  · intro entries' path' e he ht
    exact submodule_records_fields repo_key entries' recursive path' e he ht

/-- Witness for C9 at a concrete tree: the submodule entry "libfoo" under
prefix "x/" is emitted bare, without size/url, and not recursed into. -/
theorem C9_submodule_entries_witness :
    _tree_entries "r" [("libfoo", GIT_MODE_SUBMODULE, "s9", TreeObj.blob 0),
        ("a", 33188, "s1", TreeObj.blob 5)] true "x/"
      = { path := "libfoo", sha := "s9", type := "submodule",
          size := none, url := none, mode := octal6 GIT_MODE_SUBMODULE } ::
        _tree_entries "r" [("a", 33188, "s1", TreeObj.blob 5)] true "x/" :=
  (C9_submodule_entries "r" "libfoo" GIT_MODE_SUBMODULE "s9" (TreeObj.blob 0)
    [("a", 33188, "s1", TreeObj.blob 5)] true "x/" rfl).1

/-- C3 (amended): the recursively flattened tree resource is sorted
ascending by the emitted path string, the sort being applied once over all
entries at the top level; every blob and tree record's path carries the full
accumulated directory prefix, while submodule records carry only their bare
name. -/
theorem C3_flatten_sorted_fullpath (repo_key sha : String)
    (entries : List (String × Nat × String × TreeObj)) :
    List.Sorted pathLE (convert_tree repo_key sha entries true).tree ∧
    (∀ path, ∀ e ∈ _tree_entries repo_key entries true path,
      e.type = "submodule" ∨ pyStartsWith path e.path = true) := by
  constructor
  · exact List.sorted_insertionSort pathLE _
  · intro path e he
    exact tree_entries_prefix repo_key entries true path e he

/-- A tree with a submodule entry nested one level down. -/
def nestedSubTree : List (String × Nat × String × TreeObj) :=
  [("d", 16384, "sd", TreeObj.tree [("m", GIT_MODE_SUBMODULE, "sm", TreeObj.blob 0)])]

/-- The record that the flatten emits for the nested submodule entry. -/
def subRecordM : EntryData :=
  { path := "m", sha := "sm", type := "submodule", size := none, url := none,
    mode := octal6 GIT_MODE_SUBMODULE }

/-- The record that the flatten emits for the directory entry of
`nestedSubTree`. -/
def dirRecordD : EntryData :=
  { path := "" ++ "d", sha := "sd", type := "tree", size := none,
    url := some (tree_url "r" "sd"), mode := octal6 16384 }

theorem nestedSubTree_flatten_true :
    _tree_entries "r" nestedSubTree true "" = [subRecordM, dirRecordD] := by
  simp [nestedSubTree, _tree_entries, GIT_MODE_SUBMODULE, subRecordM, dirRecordD, octal6]

theorem nestedSubTree_flatten_false :
    _tree_entries "r" nestedSubTree false "" = [dirRecordD] := by
  simp [nestedSubTree, _tree_entries, GIT_MODE_SUBMODULE, dirRecordD, octal6]

/-- C3 counterexample: inside the prefix "d/", the nested submodule entry
"m" is emitted with bare path "m", not with its full path "d/m"; at the top
level the recursive flatten of `nestedSubTree` therefore lists paths
["d", "m"] and no entry carries the full path "d/m". -/
theorem C3_counterexample :
    (¬ ∀ e ∈ _tree_entries "r" [("m", GIT_MODE_SUBMODULE, "sm", TreeObj.blob 0)] true "d/",
        pyStartsWith "d/" e.path = true) ∧
    (convert_tree "r" "root" nestedSubTree true).tree.map (fun e => e.path) = ["d", "m"] := by
  have h1 : _tree_entries "r" [("m", GIT_MODE_SUBMODULE, "sm", TreeObj.blob 0)] true "d/"
      = [subRecordM] := by
    simp [_tree_entries, subRecordM]
  constructor
  · intro hall
    have hm : subRecordM ∈
        _tree_entries "r" [("m", GIT_MODE_SUBMODULE, "sm", TreeObj.blob 0)] true "d/" := by
      rw [h1]
      exact List.mem_singleton_self _
    exact absurd (hall _ hm) (by decide)
  · simp only [convert_tree]
    rw [nestedSubTree_flatten_true]
    decide

/-- Demo tree for the tree-flattening witnesses. -/
def demoTree : List (String × Nat × String × TreeObj) :=
  [("b", 33188, "s2", TreeObj.blob 7),
   ("a", 16384, "sd", TreeObj.tree [("c", 33188, "s3", TreeObj.blob 1)])]

/-- The record the flatten emits for demoTree's blob "b" under prefix "x/". -/
def blobRecordB : EntryData :=
  { path := "x/b", sha := "s2", type := "blob", size := some 7,
    url := some (blob_url "r" "s2"), mode := octal6 33188 }

/-- Witness for C3: the recursive flatten of `demoTree` is sorted by path,
and the blob record emitted under prefix "x/" carries the prefix. -/
theorem C3_flatten_sorted_fullpath_witness :
    List.Sorted pathLE (convert_tree "r" "root" demoTree true).tree ∧
    (blobRecordB.type = "submodule" ∨ pyStartsWith "x/" blobRecordB.path = true) := by
  refine ⟨(C3_flatten_sorted_fullpath "r" "root" demoTree).1,
    (C3_flatten_sorted_fullpath "r" "root" demoTree).2 "x/" _ ?_⟩
  simp [demoTree, _tree_entries, blobRecordB, GIT_MODE_SUBMODULE, octal6]

/-- C2 (amended): for every tree whose entry names are slash-free (a git
invariant) and whose nested subtrees contain no submodule-mode entries, the
non-recursive flatten equals, as a set, the recursive flatten filtered down
to the depth-1 entries (those whose emitted path contains no '/'). -/
theorem C2_depth1_filter (repo_key sha : String)
    (entries : List (String × Nat × String × TreeObj))
    (hnames : namesSlashFree entries = true)
    (hnest : noNestedSubmodules entries = true) :
    ∀ e : EntryData,
      e ∈ (convert_tree repo_key sha entries true).tree.filter (fun e => !hasSlash e.path) ↔
        e ∈ (convert_tree repo_key sha entries false).tree := by
  intro e
  have hlist := filter_depth1_flatten repo_key entries hnames hnest
  constructor
  · intro h
    have h' := List.mem_filter.mp h
    have h1 : e ∈ _tree_entries repo_key entries true "" :=
      (List.mem_insertionSort pathLE).mp h'.1
    have h2 : e ∈ (_tree_entries repo_key entries true "").filter (fun e => !hasSlash e.path) :=
      List.mem_filter.mpr ⟨h1, h'.2⟩
    rw [hlist] at h2
    exact (List.mem_insertionSort pathLE).mpr h2
  · intro h
    have h1 : e ∈ _tree_entries repo_key entries false "" :=
      (List.mem_insertionSort pathLE).mp h
    rw [← hlist] at h1
    have h' := List.mem_filter.mp h1
    exact List.mem_filter.mpr ⟨(List.mem_insertionSort pathLE).mpr h'.1, h'.2⟩

/-- Witness for C2 on `demoTree` (slash-free names, no nested submodules):
the directory record for "a" is in both the filtered recursive listing and
the non-recursive listing. -/
theorem C2_depth1_filter_witness :
    ({ path := "" ++ "a", sha := "sd", type := "tree", size := none,
       url := some (tree_url "r" "sd"), mode := octal6 16384 } : EntryData) ∈
      (convert_tree "r" "root" demoTree true).tree.filter (fun e => !hasSlash e.path) ↔
    ({ path := "" ++ "a", sha := "sd", type := "tree", size := none,
       url := some (tree_url "r" "sd"), mode := octal6 16384 } : EntryData) ∈
      (convert_tree "r" "root" demoTree false).tree := by
  refine C2_depth1_filter "r" "root" demoTree ?_ ?_ _
  · simp [demoTree, namesSlashFree, hasSlash]
  · simp [demoTree, noNestedSubmodules, noSubmodulesDeep, GIT_MODE_SUBMODULE]

/-- C2 counterexample: for `nestedSubTree`, the nested submodule record has
the slash-free path "m" and so survives the depth-1 filter of the recursive
flatten, but the non-recursive flatten does not contain it — the two sets
differ. -/
theorem C2_counterexample :
    subRecordM ∈
      (convert_tree "r" "root" nestedSubTree true).tree.filter (fun e => !hasSlash e.path) ∧
    subRecordM ∉ (convert_tree "r" "root" nestedSubTree false).tree := by
  constructor
  · simp only [convert_tree]
    rw [nestedSubTree_flatten_true]
    decide
  · simp only [convert_tree]
    rw [nestedSubTree_flatten_false]
    decide

/- Blame (restfulgit/porcelain/converters.py convert_blame and
restfulgit/porcelain/routes.py get_blame). The backend blame object is
modelled as the function line number -> hunk; the file's raw lines (the
result of splitting the blob at the resolved commit) are passed in as a
list. -/

/-- A blame hunk as `blame.for_line(n)` returns it. -/
structure BlameHunk where
  final_commit_id : String
  orig_path : String

/-- One record of the blame `lines` output. -/
structure BlameLineRec where
  commit : String
  origPath : String
  lineNum : Int
  line : String
deriving DecidableEq, Repr

/-- The converted commit resource, reduced to the identity data the claims
inspect. -/
structure CommitRecord where
  sha : String
  parent_ids : List String
  time : Int
deriving DecidableEq, Repr

/-- Plumbing `get_commit` followed by `convert_commit`. -/
def get_commit_converted (repo : Repo) (sha : String) : Except RGError CommitRecord :=
  match lookupObj repo sha with
  | none => .error (.notFound "commit not found")
  | some (.commit ps t) => .ok { sha := sha, parent_ids := ps, time := t }
  | some _ => .error (.notFound "object not a commit")

structure BlameResult where
  lines : List BlameLineRec
  commits : List (String × CommitRecord)
deriving DecidableEq, Repr

/-- Pair a commit id with its converted record, propagating lookup errors:
one entry of the `commits` dictionary comprehension. -/
def tagCommit {β : Type} (g : String → Except RGError β) (sha : String) :
    Except RGError (String × β) :=
  match g sha with
  | .ok c => .ok (sha, c)
  | .error e => .error e

/-- `convert_blame(repo_key, repo, blame, raw_lines, start_line)`: one
annotated record per raw line, numbered from `start_line`; `commits` maps
each distinct referenced commit id to its converted record. -/
def convert_blame (repo : Repo) (blame : Int → BlameHunk)
    (raw_lines : List String) (start_line : Int) : Except RGError BlameResult :=
  let annotated_lines := raw_lines.enum.map (fun p =>
    let line_num : Int := start_line + (p.1 : Int)
    let hunk := blame line_num
    { commit := hunk.final_commit_id, origPath := hunk.orig_path,
      lineNum := line_num, line := p.2 })
  let commit_shas := (annotated_lines.map (fun l => l.commit)).dedup
  match commit_shas.mapM (tagCommit (get_commit_converted repo)) with
  | .ok commits => .ok { lines := annotated_lines, commits := commits }
  | .error e => .error e

/-- Python `l[a:b]` for `a >= 0` and optional `b`. -/
def pySlice (l : List String) (a : Nat) (b : Option Int) : List String :=
  match b with
  | none => l.drop a
  | some m => (l.take m.toNat).drop a

/-- The blame route (porcelain `get_blame`): validate `firstLine`/`lastLine`
against the file's newline-delimited line count, slice the raw lines to the
requested range, and convert. The refspec/tree resolution is abstracted by
passing the file's lines directly; the `oldest` parameter is not modelled. -/
def get_blame_route (repo : Repo) (blame : Int → BlameHunk)
    (raw_lines : List String) (firstLine lastLine : Option Int) :
    Except RGError BlameResult :=
  let min_line : Int := firstLine.getD 1
  if min_line < 1 then .error (.badRequest "firstLine must be positive")
  else if lastLine.any (fun max_line => decide (max_line < 1)) then
    .error (.badRequest "lastLine must be positive")
  else if lastLine.any (fun max_line => decide (min_line > max_line)) then
    .error (.badRequest "firstLine cannot be greater than lastLine")
  else if min_line > (raw_lines.length : Int) then
    .error (.badRequest "firstLine out of bounds")
  else if lastLine.any (fun max_line => decide (max_line > (raw_lines.length : Int))) then
    .error (.badRequest "lastLine out of bounds")
  else
    convert_blame repo blame (pySlice raw_lines (min_line - 1).toNat lastLine) min_line

/-- Is the outcome a BadRequest error? -/
def isBadRequestB {α : Type} : Except RGError α → Bool
  | .error (.badRequest _) => true
  | _ => false

theorem except_ok_bind {ε α β : Type} (a : α) (f : α → Except ε β) :
    (Except.ok a >>= f) = f a := rfl

theorem except_error_bind {ε α β : Type} (e : ε) (f : α → Except ε β) :
    ((Except.error e : Except ε α) >>= f) = Except.error e := rfl

theorem except_pure {ε α : Type} (a : α) : (pure a : Except ε α) = Except.ok a := rfl

/-- Keys of the commit dictionary built by `convert_blame` over a sha list:
when building succeeds, the keys are exactly the given shas. -/
theorem mapM_tagged_keys {β : Type} (g : String → Except RGError β) :
    ∀ (shas : List String) (out : List (String × β)),
      shas.mapM (tagCommit g) = .ok out →
      out.map Prod.fst = shas := by
  intro shas
  induction shas with
  | nil =>
    intro out h
    rw [List.mapM_nil, except_pure] at h
    cases h
    rfl
  | cons a l ih =>
    intro out h
    rw [List.mapM_cons] at h
    cases hga : g a with
    | error e =>
      rw [show tagCommit g a = Except.error e by rw [tagCommit, hga]] at h
      rw [except_error_bind] at h
      cases h
    | ok c =>
      rw [show tagCommit g a = Except.ok (a, c) by rw [tagCommit, hga]] at h
      rw [except_ok_bind] at h
      cases hl : l.mapM (tagCommit g) with
      | error e =>
        rw [hl, except_error_bind] at h
        cases h
      | ok xs =>
        rw [hl, except_ok_bind, except_pure] at h
        cases h
        simp only [List.map_cons]
        rw [ih xs hl]

/-- C4: for a blame call with firstLine = 1 and lastLine absent, the result
(when produced) has exactly one line record per raw file line, numbered
consecutively from 1, and the commit dictionary's key set equals exactly the
set of commit ids referenced by the line records. -/
theorem C4_blame_full_range (repo : Repo) (blame : Int → BlameHunk)
    (raw_lines : List String) (r : BlameResult)
    (h : get_blame_route repo blame raw_lines (some 1) none = .ok r) :
    r.lines.length = raw_lines.length ∧
    (∀ (i : Nat) (hi : i < r.lines.length), (r.lines.get ⟨i, hi⟩).lineNum = 1 + (i : Int)) ∧
    (∀ s : String, s ∈ r.commits.map Prod.fst ↔ s ∈ r.lines.map (fun l => l.commit)) := by
  rw [get_blame_route] at h
  simp only [Option.getD_some, Option.any] at h
  rw [if_neg (by omega : ¬ (1 : Int) < 1)] at h
  rw [if_neg (by decide : ¬ false = true), if_neg (by decide : ¬ false = true)] at h
  by_cases hlen : (1 : Int) > (raw_lines.length : Int)
  · rw [if_pos hlen] at h
    cases h
  · rw [if_neg hlen] at h
    rw [if_neg (by decide : ¬ false = true)] at h
    have hsl : pySlice raw_lines ((1 : Int) - 1).toNat none = raw_lines := by
      simp [pySlice]
    rw [hsl] at h
    rw [convert_blame] at h
    cases hm : (((raw_lines.enum.map (fun p =>
        let line_num : Int := 1 + (p.1 : Int)
        let hunk := blame line_num
        ({ commit := hunk.final_commit_id, origPath := hunk.orig_path,
           lineNum := line_num, line := p.2 } : BlameLineRec))).map
          (fun l => l.commit)).dedup).mapM (tagCommit (get_commit_converted repo)) with
    | error e =>
      rw [hm] at h
      cases h
    | ok commits =>
      rw [hm] at h
      cases h
      refine ⟨by simp, ?_, ?_⟩
      · intro i hi
        have hi' : i < raw_lines.enum.length := by
          simpa [List.enum_length] using hi
        simp only [List.get_eq_getElem, List.getElem_map, List.getElem_enum]
      · intro s
        rw [mapM_tagged_keys (get_commit_converted repo) _ commits hm]
        exact List.mem_dedup

/-- Concrete repository, blame function and result for the blame witnesses. -/
def repoBlame : Repo := { objects := [("c1", .commit [] 5)], refs := [] }

def blameFn : Int → BlameHunk := fun _ => { final_commit_id := "c1", orig_path := "f.txt" }

def blameResDemo : BlameResult :=
  { lines := [{ commit := "c1", origPath := "f.txt", lineNum := 1, line := "alpha" },
              { commit := "c1", origPath := "f.txt", lineNum := 2, line := "beta" }],
    commits := [("c1", { sha := "c1", parent_ids := [], time := 5 })] }

/-- Witness for C4 on a two-line file blamed entirely at commit c1. -/
theorem C4_blame_full_range_witness :
    get_blame_route repoBlame blameFn ["alpha", "beta"] (some 1) none = .ok blameResDemo ∧
    blameResDemo.lines.length = 2 ∧
    ("c1" ∈ blameResDemo.commits.map Prod.fst ↔
      "c1" ∈ blameResDemo.lines.map (fun l => l.commit)) := by
  have h : get_blame_route repoBlame blameFn ["alpha", "beta"] (some 1) none
      = .ok blameResDemo := by decide
  have main := C4_blame_full_range repoBlame blameFn ["alpha", "beta"] blameResDemo h
  exact ⟨h, main.1, main.2.2 "c1"⟩

/-- C7: blame range validation — a firstLine below 1, a lastLine below the
effective firstLine, or a firstLine/lastLine beyond the file's line count
each fail BadRequest, and no blame result is produced. -/
theorem C7_blame_range_validation (repo : Repo) (blame : Int → BlameHunk)
    (raw_lines : List String) :
    (∀ (f : Int) (lastLine : Option Int), f < 1 →
      isBadRequestB (get_blame_route repo blame raw_lines (some f) lastLine) = true) ∧
    (∀ (firstLine : Option Int) (l : Int), l < firstLine.getD 1 →
      isBadRequestB (get_blame_route repo blame raw_lines firstLine (some l)) = true) ∧
    (∀ (f : Int) (lastLine : Option Int), (raw_lines.length : Int) < f →
      isBadRequestB (get_blame_route repo blame raw_lines (some f) lastLine) = true) ∧
    (∀ (firstLine : Option Int) (l : Int), (raw_lines.length : Int) < l →
      isBadRequestB (get_blame_route repo blame raw_lines firstLine (some l)) = true) := by
  refine ⟨?_, ?_, ?_, ?_⟩
  · intro f lastLine hf
    rw [get_blame_route]
    simp only [Option.getD_some]
    rw [if_pos hf]
    rfl
  · intro firstLine l hl
    rw [get_blame_route]
    by_cases hmin : firstLine.getD 1 < 1
    · rw [if_pos hmin]
      rfl
    · rw [if_neg hmin]
      simp only [Option.any]
      by_cases hl1 : l < 1
      · rw [if_pos (by simp [hl1])]
        rfl
      · rw [if_neg (by simp [hl1]), if_pos (by simp; omega)]
        rfl
  · intro f lastLine hlen
    rw [get_blame_route]
    simp only [Option.getD_some]
    by_cases hf1 : f < 1
    · rw [if_pos hf1]
      rfl
    · rw [if_neg hf1]
      cases lastLine with
      | none =>
        simp only [Option.any]
        rw [if_neg (by decide : ¬ false = true), if_neg (by decide : ¬ false = true)]
        rw [if_pos (by omega)]
        rfl
      | some m =>
        simp only [Option.any]
        by_cases hm1 : m < 1
        · rw [if_pos (by simp [hm1])]
          rfl
        · rw [if_neg (by simp [hm1])]
          by_cases hfm : f > m
          · rw [if_pos (by simp [hfm])]
            rfl
          · rw [if_neg (by simp [hfm]), if_pos (by omega)]
            rfl
  · intro firstLine l hlen
    rw [get_blame_route]
    by_cases hmin : firstLine.getD 1 < 1
    · rw [if_pos hmin]
      rfl
    · rw [if_neg hmin]
      simp only [Option.any]
      by_cases hl1 : l < 1
      · rw [if_pos (by simp [hl1])]
        rfl
      · rw [if_neg (by simp [hl1])]
        by_cases hfl : firstLine.getD 1 > l
        · rw [if_pos (by simp [hfl])]
          rfl
        · rw [if_neg (by simp [hfl])]
          by_cases hfb : firstLine.getD 1 > (raw_lines.length : Int)
          · rw [if_pos hfb]
            rfl
          · rw [if_neg hfb, if_pos (by simp; omega)]
            rfl

/-- Witness for C7 on the two-line file: firstLine=0, an inverted range, and
out-of-range firstLine/lastLine each yield BadRequest. -/
theorem C7_blame_range_validation_witness :
    isBadRequestB (get_blame_route repoBlame blameFn ["alpha", "beta"] (some 0) none) = true ∧
    isBadRequestB (get_blame_route repoBlame blameFn ["alpha", "beta"] (some 2) (some 1)) = true ∧
    isBadRequestB (get_blame_route repoBlame blameFn ["alpha", "beta"] (some 3) none) = true ∧
    isBadRequestB (get_blame_route repoBlame blameFn ["alpha", "beta"] (some 1) (some 5)) = true := by
  have main := C7_blame_range_validation repoBlame blameFn ["alpha", "beta"]
  exact ⟨main.1 0 none (by decide), main.2.1 (some 2) 1 (by decide),
    main.2.2.1 3 none (by decide), main.2.2.2 (some 1) 5 (by decide)⟩

/- Diff-carrying porcelain commit (restfulgit/porcelain/converters.py
_convert_patch and convert_commit with include_diff). The backend diff is
modelled by its list of patches; each patch carries its delta metadata and
pygit2 line_stats = (context, additions, deletions). -/

structure DiffDelta where
  status_char : Char
  new_file_path : String
  old_file_path : String
  new_file_id : String
  old_file_id : String
deriving DecidableEq, Repr

structure Patch where
  delta : DiffDelta
  line_stats : Nat × Nat × Nat
deriving DecidableEq, Repr

/-- GIT_STATUS_TO_NAME; an unknown status character raises KeyError,
modelled as none. -/
def GIT_STATUS_TO_NAME : Char → Option String
  | 'M' => some "modified"
  | 'A' => some "added"
  | 'R' => some "renamed"
  | 'D' => some "removed"
  | _ => none

structure FileChange where
  sha : String
  status : String
  filename : String
  old_filename : String
  additions : Nat
  deletions : Nat
  changes : Nat
  raw_url : String
  contents_url : String
  patch : Option String
deriving DecidableEq, Repr

structure CommitMeta where
  id : String
  parent_ids : List String
deriving DecidableEq, Repr

def raw_url_for (repo_key sha file_path : String) : String :=
  "/repos/" ++ repo_key ++ "/raw/" ++ sha ++ "/" ++ file_path

def contents_url_for (repo_key file_path ref : String) : String :=
  "/repos/" ++ repo_key ++ "/contents/" ++ file_path ++ "?ref=" ++ ref

/-- `_convert_patch`: one FileChange per backend patch; `none` models the
IndexError on `parent_ids[0]` for a deleted file of a parentless commit and
the KeyError on an unknown status character. -/
def _convert_patch (repo_key : String) (commit : CommitMeta) (patch : Patch)
    (filename_to_patch : String → Option String) : Option FileChange :=
  let deleted := patch.delta.status_char == 'D'
  match (if deleted then commit.parent_ids.head? else some commit.id),
        GIT_STATUS_TO_NAME patch.delta.status_char with
  | some commit_sha, some status =>
    some { sha := if deleted then patch.delta.old_file_id else patch.delta.new_file_id,
           status := status,
           filename := patch.delta.new_file_path,
           old_filename := patch.delta.old_file_path,
           additions := patch.line_stats.2.1,
           deletions := patch.line_stats.2.2,
           changes := patch.line_stats.2.1 + patch.line_stats.2.2,
           raw_url := raw_url_for repo_key commit_sha patch.delta.new_file_path,
           contents_url := contents_url_for repo_key patch.delta.new_file_path commit_sha,
           patch := filename_to_patch patch.delta.new_file_path }
  | _, _ => none

structure CommitStats where
  additions : Nat
  deletions : Nat
  total : Nat
deriving DecidableEq, Repr

structure CommitWithDiff where
  sha : String
  stats : CommitStats
  files : List FileChange
deriving DecidableEq, Repr

/-- `convert_commit(..., include_diff=True)`, restricted to the diff-derived
part: stats summed directly over the backend patches' line_stats, and files
converted patch by patch. -/
def convert_commit_with_diff (repo_key : String) (commit : CommitMeta)
    (patches : List Patch) (filename_to_patch : String → Option String) :
    Option CommitWithDiff :=
  let patches_additions := (patches.map (fun p => p.line_stats.2.1)).sum
  let patches_deletions := (patches.map (fun p => p.line_stats.2.2)).sum
  match patches.mapM (fun p => _convert_patch repo_key commit p filename_to_patch) with
  | some files =>
    some { sha := commit.id,
           stats := { additions := patches_additions, deletions := patches_deletions,
                      total := patches_additions + patches_deletions },
           files := files }
  | none => none

theorem convert_patch_stats (repo_key : String) (commit : CommitMeta)
    (filename_to_patch : String → Option String) (p : Patch) (fc : FileChange)
    (h : _convert_patch repo_key commit p filename_to_patch = some fc) :
    fc.additions = p.line_stats.2.1 ∧ fc.deletions = p.line_stats.2.2 := by
  simp only [_convert_patch] at h
  rcases hcs : (if (p.delta.status_char == 'D') = true then commit.parent_ids.head?
      else some commit.id) with _ | cs
  · rw [hcs] at h
    exact Option.noConfusion h
  · rw [hcs] at h
    rcases hst : GIT_STATUS_TO_NAME p.delta.status_char with _ | st
    · rw [hst] at h
      exact Option.noConfusion h
    · rw [hst] at h
      simp only [Option.some.injEq] at h
      rw [← h]
      exact ⟨rfl, rfl⟩

theorem files_stats_eq (repo_key : String) (commit : CommitMeta)
    (filename_to_patch : String → Option String) :
    ∀ (patches : List Patch) (files : List FileChange),
      patches.mapM (fun p => _convert_patch repo_key commit p filename_to_patch)
        = some files →
      files.map (fun f => f.additions) = patches.map (fun p => p.line_stats.2.1) ∧
      files.map (fun f => f.deletions) = patches.map (fun p => p.line_stats.2.2) := by
  intro patches
  induction patches with
  | nil =>
    intro files h
    rw [List.mapM_nil] at h
    cases h
    exact ⟨rfl, rfl⟩
  | cons p ps ih =>
    intro files h
    rw [List.mapM_cons] at h
    rcases hp : _convert_patch repo_key commit p filename_to_patch with _ | fc
    · rw [hp] at h
      cases h
    · rw [hp] at h
      rcases hm : ps.mapM (fun p => _convert_patch repo_key commit p filename_to_patch)
          with _ | fs
      · rw [hm] at h
        cases h
      · rw [hm] at h
        cases h
        have h1 := convert_patch_stats repo_key commit filename_to_patch p fc hp
        have h2 := ih fs hm
        simp only [List.map_cons]
        rw [h1.1, h1.2, h2.1, h2.2]
        exact ⟨rfl, rfl⟩

/-- C5: in every diff-carrying porcelain commit resource, stats.additions is
the sum of the per-file additions, stats.deletions the sum of the per-file
deletions, and stats.total their sum. -/
theorem C5_diff_stats_sum (repo_key : String) (commit : CommitMeta)
    (patches : List Patch) (filename_to_patch : String → Option String)
    (r : CommitWithDiff)
    (h : convert_commit_with_diff repo_key commit patches filename_to_patch = some r) :
    (r.files.map (fun f => f.additions)).sum = r.stats.additions ∧
    (r.files.map (fun f => f.deletions)).sum = r.stats.deletions ∧
    r.stats.total = r.stats.additions + r.stats.deletions := by
  rw [convert_commit_with_diff] at h
  rcases hm : patches.mapM (fun p => _convert_patch repo_key commit p filename_to_patch)
      with _ | files
  · rw [hm] at h
    cases h
  · rw [hm] at h
    cases h
    have hf := files_stats_eq repo_key commit filename_to_patch patches files hm
    exact ⟨by rw [hf.1], by rw [hf.2], rfl⟩

/-- Witness data for C5: one modified and one added file. -/
def patchesDemo : List Patch :=
  [{ delta := { status_char := 'M', new_file_path := "a.txt", old_file_path := "a.txt",
                new_file_id := "n1", old_file_id := "o1" },
     line_stats := (2, 3, 1) },
   { delta := { status_char := 'A', new_file_path := "b.txt", old_file_path := "b.txt",
                new_file_id := "n2", old_file_id := "o2" },
     line_stats := (0, 2, 0) }]

def commitDemo : CommitMeta := { id := "c9", parent_ids := ["c8"] }

/-- The diff-carrying commit resource the code produces for `patchesDemo`. -/
def cwdDemo : CommitWithDiff :=
  { sha := "c9",
    stats := { additions := 5, deletions := 1, total := 6 },
    files :=
      [{ sha := "n1", status := "modified", filename := "a.txt", old_filename := "a.txt",
         additions := 3, deletions := 1, changes := 4,
         raw_url := raw_url_for "r" "c9" "a.txt",
         contents_url := contents_url_for "r" "a.txt" "c9", patch := none },
       { sha := "n2", status := "added", filename := "b.txt", old_filename := "b.txt",
         additions := 2, deletions := 0, changes := 2,
         raw_url := raw_url_for "r" "c9" "b.txt",
         contents_url := contents_url_for "r" "b.txt" "c9", patch := none }] }

theorem C5_diff_stats_sum_witness :
    convert_commit_with_diff "r" commitDemo patchesDemo (fun _ => none) = some cwdDemo ∧
    (cwdDemo.files.map (fun f => f.additions)).sum = cwdDemo.stats.additions ∧
    (cwdDemo.files.map (fun f => f.deletions)).sum = cwdDemo.stats.deletions ∧
    cwdDemo.stats.total = cwdDemo.stats.additions + cwdDemo.stats.deletions := by
  have h : convert_commit_with_diff "r" commitDemo patchesDemo (fun _ => none)
      = some cwdDemo := by decide
  have main := C5_diff_stats_sum "r" commitDemo patchesDemo (fun _ => none) cwdDemo h
  exact ⟨h, main.1, main.2.1, main.2.2⟩

/- Commit graph walking (backend repo.walk / merge_base, consumed by
porcelain get_commits_unique_to_branch and plumbing get_commit_list). -/

def parents_of (repo : Repo) (sha : String) : List String :=
  match lookupObj repo sha with
  | some (.commit ps _) => ps
  | _ => []

def time_of (repo : Repo) (sha : String) : Int :=
  match lookupObj repo sha with
  | some (.commit _ t) => t
  | _ => 0

/-- Total number of parent edges in the repository. -/
def totalParents (repo : Repo) : Nat :=
  (repo.objects.map (fun p =>
    match p.2 with
    | .commit ps _ => ps.length
    | _ => 0)).sum

/-- Breadth-first enumeration of the commits reachable from the queue,
skipping already-visited ids and ids that are not commits. The fuel bounds
the number of queue pops. -/
def ancestorsAux (repo : Repo) : Nat → List String → List String → List String
  | 0, _, visited => visited
  | _ + 1, [], visited => visited
  | fuel + 1, c :: queue, visited =>
    if c ∈ visited then ancestorsAux repo fuel queue visited
    else
      match lookupObj repo c with
      | some (.commit ps _) => ancestorsAux repo fuel (queue ++ ps) (visited ++ [c])
      | _ => ancestorsAux repo fuel queue visited

/-- The commits reachable from `start` (the commit itself included), as the
backend walker enumerates them: `repo.walk(start, ...)` yields exactly
these, in an order selected by the sort flags. -/
def ancestorsFrom (repo : Repo) (start : String) : List String :=
  ancestorsAux repo (repo.objects.length + totalParents repo + 1) [start] []

/-- Modelled from the spec: `repo.merge_base` — the backend's pairwise
merge-base (nearest common ancestor); the first ancestor of `l` in walk
order that is also an ancestor of `r`, or `None` when no common ancestor
exists (the code maps that KeyError to None). -/
def merge_base (repo : Repo) (l r : String) : Option String :=
  (ancestorsFrom repo l).find? (fun c => decide (c ∈ ancestorsFrom repo r))

/-- `_get_other_nonsymbolic_refs(repo, main_ref_name)`: every reference
except the named one and the symbolic ones, with its direct target. -/
def _get_other_nonsymbolic_refs (repo : Repo) (main_ref_name : String) :
    List (String × String) :=
  repo.refs.filterMap (fun p =>
    if p.1 = main_ref_name then none
    else
      match p.2 with
      | .direct t => some (p.1, t)
      | .symbolic _ => none)

structure Branch where
  name : String
  target : String

/-- `get_commits_unique_to_branch(repo, branch, sort)`: hide the pairwise
merge-bases with every other non-symbolic ref, then walk from the branch
tip. The walker is modelled as the reachable set arranged by the requested
ordering `orderFn` (topological- or time-reversed); hiding a commit excludes
it together with its ancestors. A missing branch tip makes `repo.walk`
raise, which no handler converts. -/
def get_commits_unique_to_branch (repo : Repo) (branch : Branch)
    (orderFn : List String → List String) : Except RGError (List String) :=
  let common_ancestor_oids :=
    (((_get_other_nonsymbolic_refs repo branch.name).map
      (fun p => merge_base repo branch.target p.2)).reduceOption).dedup
  match lookupObj repo branch.target with
  | some (.commit _ _) =>
    .ok ((orderFn (ancestorsFrom repo branch.target)).filter
      (fun c => !(common_ancestor_oids.any (fun a => decide (c ∈ ancestorsFrom repo a)))))
  | _ => .error .uncaught

theorem ancestorsAux_prefix (repo : Repo) :
    ∀ (fuel : Nat) (q v : List String), ∃ w, ancestorsAux repo fuel q v = v ++ w := by
  intro fuel
  induction fuel with
  | zero =>
    intro q v
    exact ⟨[], by simp [ancestorsAux]⟩
  | succ n ih =>
    intro q v
    cases q with
    | nil => exact ⟨[], by simp [ancestorsAux]⟩
    | cons c rest =>
      simp only [ancestorsAux]
      by_cases hc : c ∈ v
      · rw [if_pos hc]
        exact ih rest v
      · rw [if_neg hc]
        cases hl : lookupObj repo c with
        | none => exact ih rest v
        | some o =>
          cases o with
          | commit ps t =>
            obtain ⟨w, hw⟩ := ih (rest ++ ps) (v ++ [c])
            refine ⟨[c] ++ w, ?_⟩
            show ancestorsAux repo n (rest ++ ps) (v ++ [c]) = v ++ ([c] ++ w)
            rw [hw, List.append_assoc]
          | tree => exact ih rest v
          | blob => exact ih rest v
          | tag tg => exact ih rest v

theorem ancestorsFrom_head (repo : Repo) (t : String) (ps : List String) (tm : Int)
    (h : lookupObj repo t = some (.commit ps tm)) :
    ∃ w, ancestorsFrom repo t = t :: w := by
  rw [ancestorsFrom]
  simp only [ancestorsAux]
  rw [if_neg (List.not_mem_nil t), h]
  obtain ⟨w, hw⟩ := ancestorsAux_prefix repo (repo.objects.length + totalParents repo)
    ([] ++ ps) ([] ++ [t])
  refine ⟨w, ?_⟩
  show ancestorsAux repo (repo.objects.length + totalParents repo) ([] ++ ps) ([] ++ [t])
    = t :: w
  rw [hw]
  rfl

theorem merge_base_self (repo : Repo) (t : String) (ps : List String) (tm : Int)
    (h : lookupObj repo t = some (.commit ps tm)) :
    merge_base repo t t = some t := by
  obtain ⟨w, hw⟩ := ancestorsFrom_head repo t ps tm h
  rw [merge_base, hw]
  apply List.find?_cons_of_pos
  simp

/-- C6: a branch whose tip equals the target of some other non-symbolic ref
yields the empty unique-commits list, for every ordering of the walk
(topological or chronological: any ordering that emits only walked
commits). -/
theorem C6_unique_commits_identical_ref_empty (repo : Repo) (branch : Branch)
    (orderFn : List String → List String) (other_name : String)
    (horder : ∀ (l : List String) (c : String), c ∈ orderFn l → c ∈ l)
    (href : (other_name, RefVal.direct branch.target) ∈ repo.refs)
    (hname : other_name ≠ branch.name)
    (ps : List String) (tm : Int)
    (hobj : lookupObj repo branch.target = some (.commit ps tm)) :
    get_commits_unique_to_branch repo branch orderFn = .ok [] := by
  rw [get_commits_unique_to_branch, hobj]
  have hmem_others : (other_name, branch.target) ∈
      _get_other_nonsymbolic_refs repo branch.name := by
    rw [_get_other_nonsymbolic_refs, List.mem_filterMap]
    refine ⟨(other_name, RefVal.direct branch.target), href, ?_⟩
    rw [if_neg hname]
  have htmem : branch.target ∈
      ((((_get_other_nonsymbolic_refs repo branch.name).map
        (fun p => merge_base repo branch.target p.2)).reduceOption).dedup) := by
    rw [List.mem_dedup, List.reduceOption_mem_iff]
    rw [← merge_base_self repo branch.target ps tm hobj]
    exact List.mem_map_of_mem (fun p => merge_base repo branch.target p.2) hmem_others
  have hfilter : (orderFn (ancestorsFrom repo branch.target)).filter
      (fun c => !(((((_get_other_nonsymbolic_refs repo branch.name).map
        (fun p => merge_base repo branch.target p.2)).reduceOption).dedup).any
          (fun a => decide (c ∈ ancestorsFrom repo a)))) = [] := by
    rw [List.filter_eq_nil_iff]
    intro c hc
    have hreach : c ∈ ancestorsFrom repo branch.target := horder _ c hc
    simp only [Bool.not_eq_true', Bool.not_eq_false]
    rw [List.any_eq_true]
    exact ⟨branch.target, htmem, by simp [hreach]⟩
  rw [hfilter]

/-- Concrete repository for the C6 witness: two branches at the same
commit. -/
def repoUnique : Repo :=
  { objects := [("c1", .commit [] 3)],
    refs := [("refs/heads/b", .direct "c1"), ("refs/heads/master", .direct "c1")] }

theorem C6_unique_commits_identical_ref_empty_witness :
    get_commits_unique_to_branch repoUnique { name := "refs/heads/b", target := "c1" }
      (fun l => l) = .ok [] :=
  C6_unique_commits_identical_ref_empty repoUnique
    { name := "refs/heads/b", target := "c1" } (fun l => l) "refs/heads/master"
    (fun _ _ hc => hc) (by decide) (by decide) [] 3 (by decide)

/- Commit list route (restfulgit/plumbing/routes.py get_commit_list). -/

/-- Parse a non-empty all-digit character list as a natural number. -/
def pyIntDigits (cs : List Char) : Option Nat :=
  if cs = [] then none
  else if cs.all (fun c => c.isDigit) then
    some (cs.foldl (fun acc c => acc * 10 + (c.toNat - 48)) 0)
  else none

/-- Python `int(s)` on the strings the route receives: an optional sign
followed by digits (surrounding whitespace is not modelled). `none` models
the ValueError. -/
def pyInt (s : String) : Option Int :=
  match s.data with
  | '-' :: rest => (pyIntDigits rest).map (fun n => -(n : Int))
  | '+' :: rest => (pyIntDigits rest).map (fun n => (n : Int))
  | cs => (pyIntDigits cs).map (fun n => (n : Int))

/-- `request.args.get(x) or None` / `... or DEFAULT`: an absent or empty
(falsy) parameter becomes None. -/
def blankToNone : Option String → Option String
  | none => none
  | some s => if s = "" then none else some s

def DEFAULT_COMMIT_LIST_LIMIT : Int := 50

def convert_commit_plumbing (repo : Repo) (sha : String) : CommitRecord :=
  { sha := sha, parent_ids := parents_of repo sha, time := time_of repo sha }

/-- The GIT_SORT_TIME walk order: reachable commits, newest commit time
first. -/
def walk_time_order (repo : Repo) (start : String) : List String :=
  List.insertionSort (fun a b => time_of repo b ≤ time_of repo a)
    (ancestorsFrom repo start)

/-- `get_commit_list` after the limit parameter has been parsed and the
repository opened: resolve the start commit (from start_sha, or from the
ref name defaulting to HEAD, with the unborn-HEAD special case), then walk
in time order and return at most `limit` converted commits. -/
def get_commit_list_resolved (repo : Repo) (ref_name? start_sha? : Option String)
    (limit : Int) : Except RGError (List CommitRecord) :=
  if limit < 0 then .error (.badRequest "invalid limit")
  else
    let startE : Except RGError (Option String) :=
      match start_sha? with
      | some s => .ok (some s)
      | none =>
        let ref_name := ref_name?.getD "HEAD"
        match lookup_ref repo ref_name with
        | none => .error (.notFound "reference not found")
        | some start_ref =>
          match refResolveTarget repo start_ref with
          | some t => .ok (some t)
          | none =>
            if ref_name = "HEAD" then .ok none
            else .error (.notFound "reference not found")
    match startE with
    | .error e => .error e
    | .ok none => .ok []
    | .ok (some start_commit_id) =>
      match lookupObj repo start_commit_id with
      | none => .error (.notFound "commit not found")
      | some (.commit _ _) =>
        .ok (((walk_time_order repo start_commit_id).take limit.toNat).map
          (convert_commit_plumbing repo))
      | some _ => .error .uncaught

/-- The full `get_commit_list` route: parse the limit query parameter (an
absent or empty value falls back to the default limit), validate it, then
resolve and walk. -/
def get_commit_list (repo : Repo)
    (ref_name_param start_sha_param limit_param : Option String) :
    Except RGError (List CommitRecord) :=
  match (match blankToNone limit_param with
         | none => Except.ok DEFAULT_COMMIT_LIST_LIMIT
         | some s =>
           match pyInt s with
           | none => Except.error (RGError.badRequest "invalid limit")
           | some v => Except.ok v) with
  | .error e => .error e
  | .ok limit =>
    get_commit_list_resolved repo (blankToNone ref_name_param)
      (blankToNone start_sha_param) limit

theorem commit_list_resolved_zero (repo : Repo) (ref_name? start_sha? : Option String)
    (l : List CommitRecord)
    (h : get_commit_list_resolved repo ref_name? start_sha? 0 = .ok l) : l = [] := by
  rw [get_commit_list_resolved.eq_def] at h
  rw [if_neg (by omega : ¬ (0 : Int) < 0)] at h
  cases hs : start_sha? with
  | some s =>
    rw [hs] at h
    try dsimp only at h
    cases ho : lookupObj repo s with
    | none =>
      rw [ho] at h
      try dsimp only at h
      cases h
    | some o =>
      rw [ho] at h
      try dsimp only at h
      cases o with
      | commit ps t =>
        cases h
        simp
      | tree => cases h
      | blob => cases h
      | tag tg => cases h
  | none =>
    rw [hs] at h
    try dsimp only at h
    cases hlr : lookup_ref repo (ref_name?.getD "HEAD") with
    | none =>
      rw [hlr] at h
      try dsimp only at h
      cases h
    | some start_ref =>
      rw [hlr] at h
      try dsimp only at h
      cases hrt : refResolveTarget repo start_ref with
      | none =>
        rw [hrt] at h
        try dsimp only at h
        by_cases hh : ref_name?.getD "HEAD" = "HEAD"
        · rw [if_pos hh] at h
          cases h
          rfl
        · rw [if_neg hh] at h
          cases h
      | some t =>
        rw [hrt] at h
        try dsimp only at h
        cases ho : lookupObj repo t with
        | none =>
          rw [ho] at h
          try dsimp only at h
          cases h
        | some o =>
          rw [ho] at h
          try dsimp only at h
          cases o with
          | commit ps tt =>
            cases h
            simp
          | tree => cases h
          | blob => cases h
          | tag tg => cases h

theorem commit_list_resolved_bound (repo : Repo) (ref_name? start_sha? : Option String)
    (v : Int) (l : List CommitRecord)
    (h : get_commit_list_resolved repo ref_name? start_sha? v = .ok l) :
    l.length ≤ v.toNat := by
  rw [get_commit_list_resolved.eq_def] at h
  by_cases hv : v < 0
  · rw [if_pos hv] at h
    cases h
  · rw [if_neg hv] at h
    cases hs : start_sha? with
    | some s =>
      rw [hs] at h
      try dsimp only at h
      cases ho : lookupObj repo s with
      | none =>
        rw [ho] at h
        try dsimp only at h
        cases h
      | some o =>
        rw [ho] at h
        try dsimp only at h
        cases o with
        | commit ps t =>
          cases h
          rw [List.length_map]
          exact le_trans (List.length_take_le _ _) (le_refl _)
        | tree => cases h
        | blob => cases h
        | tag tg => cases h
    | none =>
      rw [hs] at h
      try dsimp only at h
      cases hlr : lookup_ref repo (ref_name?.getD "HEAD") with
      | none =>
        rw [hlr] at h
        try dsimp only at h
        cases h
      | some start_ref =>
        rw [hlr] at h
        try dsimp only at h
        cases hrt : refResolveTarget repo start_ref with
        | none =>
          rw [hrt] at h
          try dsimp only at h
          by_cases hh : ref_name?.getD "HEAD" = "HEAD"
          · rw [if_pos hh] at h
            cases h
            simp
          · rw [if_neg hh] at h
            cases h
        | some t =>
          rw [hrt] at h
          try dsimp only at h
          cases ho : lookupObj repo t with
          | none =>
            rw [ho] at h
            try dsimp only at h
            cases h
          | some o =>
            rw [ho] at h
            try dsimp only at h
            cases o with
            | commit ps tt =>
              cases h
              rw [List.length_map]
              exact le_trans (List.length_take_le _ _) (le_refl _)
            | tree => cases h
            | blob => cases h
            | tag tg => cases h

/-- C8 (amended): a non-empty limit parameter that is not a valid integer,
or parses to a negative integer, fails BadRequest("invalid limit")
regardless of the repository contents (no commits are walked); limit "0"
can only produce the empty list; and for every non-negative parsed limit
the returned list has at most that many commits. An empty limit parameter
is falsy in the code and silently falls back to the default limit instead
of failing. -/
theorem C8_commit_list_limit (repo : Repo) (ref_name_param start_sha_param : Option String) :
    (∀ s : String, s ≠ "" → pyInt s = none →
      get_commit_list repo ref_name_param start_sha_param (some s)
        = .error (.badRequest "invalid limit")) ∧
    (∀ (s : String) (v : Int), pyInt s = some v → v < 0 →
      get_commit_list repo ref_name_param start_sha_param (some s)
        = .error (.badRequest "invalid limit")) ∧
    (∀ l : List CommitRecord,
      get_commit_list repo ref_name_param start_sha_param (some "0") = .ok l → l = []) ∧
    (∀ (s : String) (v : Int) (l : List CommitRecord), pyInt s = some v → 0 ≤ v →
      get_commit_list repo ref_name_param start_sha_param (some s) = .ok l →
      l.length ≤ v.toNat) := by
  refine ⟨?_, ?_, ?_, ?_⟩
  · intro s hs hp
    rw [get_commit_list]
    simp only [blankToNone]
    rw [if_neg hs]
    try dsimp only
    rw [hp]
  · intro s v hp hv
    by_cases hse : s = ""
    · rw [hse] at hp
      rw [show pyInt "" = none from rfl] at hp
      cases hp
    · rw [get_commit_list]
      simp only [blankToNone]
      rw [if_neg hse]
      try dsimp only
      rw [hp]
      try dsimp only
      rw [get_commit_list_resolved.eq_def]
      rw [if_pos hv]
  · intro l h
    rw [get_commit_list] at h
    simp only [blankToNone] at h
    rw [if_neg (by decide : ¬ "0" = "")] at h
    dsimp only at h
    rw [show pyInt "0" = some 0 from rfl] at h
    dsimp only at h
    exact commit_list_resolved_zero repo _ _ l h
  · intro s v l hp hv h
    by_cases hse : s = ""
    · rw [hse] at hp
      rw [show pyInt "" = none from rfl] at hp
      cases hp
    · rw [get_commit_list] at h
      simp only [blankToNone] at h
      rw [if_neg hse] at h
      dsimp only at h
      rw [hp] at h
      dsimp only at h
      exact commit_list_resolved_bound repo _ _ v l h

/-- Repository with one commit for the C8 counterexample and witness. -/
def repoC8 : Repo :=
  { objects := [("c1", .commit [] 7)],
    refs := [("HEAD", .symbolic "refs/heads/master"), ("refs/heads/master", .direct "c1")] }

/-- C8 counterexample: a present-but-empty limit parameter is not a valid
integer, yet the request does not fail BadRequest — the empty string is
falsy and falls back to the default limit, so the walk succeeds. -/
theorem C8_counterexample :
    get_commit_list repoC8 none none (some "")
      = .ok [{ sha := "c1", parent_ids := [], time := 7 }] ∧
    isBadRequestB (get_commit_list repoC8 none none (some "")) = false := by
  constructor <;> decide

/-- Witness for C8: a malformed limit and limit=-1 fail BadRequest, limit=0
returns the empty list, and limit=5 returns at most 5 commits. -/
theorem C8_commit_list_limit_witness :
    get_commit_list repoC8 none none (some "abc") = .error (.badRequest "invalid limit") ∧
    get_commit_list repoC8 none none (some "-1") = .error (.badRequest "invalid limit") ∧
    get_commit_list repoC8 none none (some "0") = .ok [] ∧
    [({ sha := "c1", parent_ids := [], time := 7 } : CommitRecord)].length ≤ (5 : Int).toNat := by
  have main := C8_commit_list_limit repoC8 none none
  have h0 : get_commit_list repoC8 none none (some "0") = .ok [] := by decide
  have h5 : get_commit_list repoC8 none none (some "5")
      = .ok [{ sha := "c1", parent_ids := [], time := 7 }] := by decide
  have hz := main.2.2.1 [] h0
  exact ⟨main.1 "abc" (by decide) (by decide),
    main.2.1 "-1" (-1) (by decide) (by decide),
    h0,
    main.2.2.2 "5" 5 [{ sha := "c1", parent_ids := [], time := 7 }] (by decide) (by decide) h5⟩

/-- C10: when the requested ref exists but cannot be resolved to a commit
(an unborn HEAD in an empty repository), a commit-list request with the
effective ref name "HEAD" succeeds with the empty list, while any other
effective ref name fails NotFound("reference not found"). Stated for the
default limit and no start_sha. -/
theorem C10_commit_list_unresolvable_ref (repo : Repo) (ref_name_param : Option String)
    (ref : String × RefVal)
    (hlook : lookup_ref repo ((blankToNone ref_name_param).getD "HEAD") = some ref)
    (hres : refResolveTarget repo ref = none) :
    ((blankToNone ref_name_param).getD "HEAD" = "HEAD" →
      get_commit_list repo ref_name_param none none = .ok []) ∧
    ((blankToNone ref_name_param).getD "HEAD" ≠ "HEAD" →
      get_commit_list repo ref_name_param none none
        = .error (.notFound "reference not found")) := by
  obtain ⟨rp, hrp⟩ : ∃ rp, blankToNone ref_name_param = rp := ⟨_, rfl⟩
  rw [hrp] at hlook
  constructor
  · intro hh
    rw [hrp] at hh
    rw [get_commit_list]
    rw [hrp]
    try dsimp only [blankToNone]
    rw [get_commit_list_resolved.eq_def]
    rw [if_neg (by decide : ¬ DEFAULT_COMMIT_LIST_LIMIT < 0)]
    try dsimp only
    rw [hlook]
    try dsimp only
    rw [hres]
    try dsimp only
    rw [if_pos hh]
  · intro hh
    rw [hrp] at hh
    rw [get_commit_list]
    rw [hrp]
    try dsimp only [blankToNone]
    rw [get_commit_list_resolved.eq_def]
    rw [if_neg (by decide : ¬ DEFAULT_COMMIT_LIST_LIMIT < 0)]
    try dsimp only
    rw [hlook]
    try dsimp only
    rw [hres]
    try dsimp only
    rw [if_neg hh]

/-- An empty repository: unborn HEAD plus another unresolvable symbolic
ref. -/
def repoEmpty : Repo :=
  { objects := [],
    refs := [("HEAD", .symbolic "refs/heads/master"),
             ("refs/sym", .symbolic "refs/heads/master")] }

/-- Witness for C10 on the empty repository: the default ref name HEAD
yields the empty list; the other unresolvable ref yields NotFound. -/
theorem C10_commit_list_unresolvable_ref_witness :
    get_commit_list repoEmpty none none none = .ok [] ∧
    get_commit_list repoEmpty (some "refs/sym") none none
      = .error (.notFound "reference not found") := by
  refine ⟨(C10_commit_list_unresolvable_ref repoEmpty none
      ("HEAD", .symbolic "refs/heads/master") (by decide) (by decide)).1 (by decide),
    (C10_commit_list_unresolvable_ref repoEmpty (some "refs/sym")
      ("refs/sym", .symbolic "refs/heads/master") (by decide) (by decide)).2 (by decide)⟩
